import Mathlib

set_option linter.unusedVariables false

/-!
# Verification of the pve-storage-info disk-inventory pipeline

Shallow embedding of `src/pve-storage-info.py` (Python) in Lean 4, together
with proofs settling the specification claims about its parsing,
normalization, aggregation, orchestration and output components.

Conventions of the embedding:
* Python strings are modelled as `String` / `List Char` (the program only
  handles ASCII configuration text).
* Python `int` is modelled as `Int`; Python floor division `//` is `Int.fdiv`.
* Python float formatting `f"{x:.2f}"` is round-half-to-even at two
  decimals of the formatted double's exact (dyadic rational) value
  (`fmtFixed2`).  In `humanize_mb` the divisions are by powers of two, so
  the double IS the exact rational for magnitudes below `2^53` and
  `fmtFixed2` is applied to it directly.  In the storage-percentage path
  the division `used_mb * 100.0 / total_mb` has an arbitrary denominator,
  so there the doubles themselves are modelled: binary64 values appear as
  mantissa/exponent pairs `(m, 2^e)` and every arithmetic step is the
  correctly rounded (round-to-nearest, ties-to-even) IEEE-754 operation
  (`doubleOfRat`, `dmul`, `ddiv`, `dsub`), with an unbounded exponent —
  exact for all results in the binary64 normal range, which covers every
  value reachable from byte counts (overflow would require pools beyond
  `10^300` bytes, where CPython raises `OverflowError` instead).
* Fallible operations return `Option`; an uncaught Python exception during a
  whole-view computation is modelled as the whole computation returning
  `none`.
-/

set_option maxRecDepth 100000

namespace PveStorageInfo

/-! ## Python primitives: `str.strip`, `int(...)` -/

/-- ASCII whitespace stripped by Python's `str.strip()`. -/
def pyIsSpace (c : Char) : Bool :=
  c == ' ' || c == '\t' || c == '\n' || c == '\r' || c == '\x0b' || c == '\x0c'

/-- Python `str.strip()` on a character list. -/
def pyTrim (l : List Char) : List Char :=
  ((l.dropWhile pyIsSpace).reverse.dropWhile pyIsSpace).reverse

/-- Validity of the characters following the leading digit of a Python
integer literal: digits with single underscores allowed only between
digits.  The flag records whether the previous character was `'_'`. -/
def validTail : Bool → List Char → Bool
  | b, [] => !b
  | b, c :: rest =>
    if c = '_' then (if b then false else validTail true rest)
    else c.isDigit && validTail false rest

/-- A non-empty digit string as accepted by Python `int(...)` after sign
removal: starts with a digit, underscores only between digits. -/
def digitsOk : List Char → Bool
  | [] => false
  | c :: rest => c.isDigit && validTail false rest

/-- Decimal value of one digit character. -/
def digitVal (c : Char) : Nat := c.toNat - 48

/-- Decimal value of a digit string, skipping `'_'` separators. -/
def digitsVal (l : List Char) : Nat :=
  l.foldl (fun acc c => if c = '_' then acc else acc * 10 + digitVal c) 0

/-- Python `int(s)` on a character list: optional surrounding whitespace,
optional sign, then digits (with underscore separators); `none` models a
raised `ValueError`. -/
def pyIntCore (l : List Char) : Option Int :=
  if (pyTrim l).head? = some '-' then
    (if digitsOk (pyTrim l).tail then some (-(digitsVal (pyTrim l).tail : Int)) else none)
  else if (pyTrim l).head? = some '+' then
    (if digitsOk (pyTrim l).tail then some ((digitsVal (pyTrim l).tail : Int)) else none)
  else if digitsOk (pyTrim l) then some ((digitsVal (pyTrim l) : Int)) else none

/-- Python `int(s)` on a `String`. -/
def py_int (s : String) : Option Int := pyIntCore s.data

/-! ## `parse_size_to_mb` (the SizeUnit Normalizer) -/

/-- Python `num_str.split(".", 1)[0]`, applied only when a dot is present — mirrors
the `if "." in num_str:` truncation step of `parse_size_to_mb`. -/
def truncDot (l : List Char) : List Char :=
  if l.contains '.' then l.takeWhile (fun c => c != '.') else l

/-- The unit-conversion table of `parse_size_to_mb` (applied to the
already-uppercased unit letter); the catch-all branch returns the numeric
portion unchanged ("already MiB"). -/
def applyUnit (u : Char) (num : Int) : Int :=
  if u = 'K' then Int.fdiv num 1024
  else if u = 'M' then num
  else if u = 'G' then num * 1024
  else if u = 'T' then num * 1024 * 1024
  else num

/-- Core of `parse_size_to_mb(size_str)`.  `size_str[-1]` / `size_str[:-1]`
are reached through `reverse`; an empty string returns `None`.  If the last
character is a digit the whole token is parsed with `int(...)`; otherwise
the numeric portion is truncated at a decimal point, parsed, and scaled by
the unit letter (case-insensitively). -/
def parseSizeCore (l : List Char) : Option Int :=
  match l.reverse with
  | [] => none
  | unit :: rev_rest =>
    if unit.isDigit then pyIntCore l
    else
      match pyIntCore (truncDot rev_rest.reverse) with
      | none => none
      | some num => some (applyUnit unit.toUpper num)

/-- The source function `parse_size_to_mb`, on `String`. -/
def parse_size_to_mb (s : String) : Option Int := parseSizeCore s.data

/-! ## `humanize_mb` -/

/-- CPython `f"{num/den:.2f}"` for an exact rational `num/den` (`den > 0`):
round-half-to-even at two decimals, sign taken from the value. -/
def fmtFixed2 (num den : Int) : String :=
  let t := num * 100
  let q := Int.fdiv t den
  let r := t - q * den
  let n := if 2 * r < den then q else if den < 2 * r then q + 1
           else if q % 2 = 0 then q else q + 1
  let s := n.natAbs
  let frac := s % 100
  (if num < 0 then "-" else "") ++ toString (s / 100) ++ "." ++
    (if frac < 10 then "0" ++ toString frac else toString frac)

/-- Source function `humanize_mb(mb)`: choose value/unit by thresholds, then
render `f"{mb} ({val:.2f} {unit})"`.  In the MiB branch `val` is the integer
itself (denominator 1), exactly as in the Python code. -/
def humanize_mb (mb : Int) : String :=
  let vu : String × String :=
    if 1024 * 1024 ≤ mb then (fmtFixed2 mb (1024 * 1024), "TiB")
    else if 1024 ≤ mb then (fmtFixed2 mb 1024, "GiB")
    else (fmtFixed2 mb 1, "MiB")
  toString mb ++ " (" ++ vu.1 ++ " " ++ vu.2 ++ ")"

/-! ## `extract_disk_info` (the DiskSpec Parser) -/

/-- One parsed disk record, as built by `extract_disk_info`. -/
structure DiskRow where
  cluster : String
  node : String
  vmid : String
  vmname : String
  storage : String
  vmdisk : String
  size : String
  size_mb : Int
deriving DecidableEq, Repr

/-- The literal marker `"size="` scanned for by `extract_disk_info`. -/
def sizeMarker : List Char := ['s', 'i', 'z', 'e', '=']

/-- Text after the LAST occurrence of `m` in the list (Python
`s[s.rfind(m) + len(m):]`), or `none` when `m` (non-empty) does not occur. -/
def afterLast (m : List Char) : List Char → Option (List Char)
  | [] => none
  | c :: rest =>
    match afterLast m rest with
    | some r => some r
    | none => if m.isPrefixOf (c :: rest) then some ((c :: rest).drop m.length) else none

/-- Python `m in s` (substring containment) for non-empty `m`. -/
def hasSubstr (m s : List Char) : Bool := (afterLast m s).isSome

/-- Core of `extract_disk_info(cluster_name, node, vmid, vmname, bus,
diskspec)`: requires a `:`; storage is the text before the first `:`, the
volume the text from there to the first `,`; the size token follows the last
`"size="`, runs to the next `,`, and is stripped; it must be non-empty and
must normalize. -/
def extractCore (cluster_name node vmid vmname bus : String) (l : List Char) :
    Option DiskRow :=
  if l.contains ':' then
    let storage := l.takeWhile (fun c => c != ':')
    let rest := (l.dropWhile (fun c => c != ':')).tail
    let vmdisk := rest.takeWhile (fun c => c != ',')
    match afterLast sizeMarker l with
    | none => none
    | some size_part =>
      let size0 := if size_part.contains ',' then size_part.takeWhile (fun c => c != ',')
                   else size_part
      let size := pyTrim size0
      if size = [] then none
      else
        match parseSizeCore size with
        | none => none
        | some size_mb =>
          some { cluster := cluster_name, node := node, vmid := vmid, vmname := vmname,
                 storage := ⟨storage⟩, vmdisk := ⟨vmdisk⟩, size := ⟨size⟩,
                 size_mb := size_mb }
  else none

/-- The source function `extract_disk_info` (the unused `bus` parameter is kept
for signature fidelity). -/
def extract_disk_info (cluster_name node vmid vmname bus diskspec : String) :
    Option DiskRow :=
  extractCore cluster_name node vmid vmname bus diskspec.data

/-! ## `fetch_vm_disks` (the Workload Disk Collector)

The external `pvesh` invocation is represented by its outcome: `.error e`
models a raised `CalledProcessError` (caught inside `fetch_vm_disks`),
`.ok none` an empty response, `.ok (some cfg)` a config dictionary given as
an insertion-ordered key/value list. -/

/-- One entry of the filtered workload inventory (`vm_entries` in `main`). -/
structure VmEntry where
  vmid : String
  node : String
  vmname : String
  vtype : String
deriving DecidableEq, Repr

/-- Python `key.startswith(pre)`. -/
def startsWithL (pre s : String) : Bool := pre.data.isPrefixOf s.data

/-- The literal removable-media marker excluded for VM configs. -/
def cdromMarker : List Char := "media=cdrom".data

/-- Source function `fetch_vm_disks(cluster_name, vm_entry)`, given the outcome of the
config fetch; returns the collected rows together with the warning lines
written to the diagnostic stream. -/
def fetch_vm_disks (cluster_name : String) (vm : VmEntry)
    (cfg : Except String (Option (List (String × String)))) :
    List DiskRow × List String :=
  if vm.vtype = "qemu" ∨ vm.vtype = "lxc" then
    match cfg with
    | .error e =>
      ([], ["Warning: cannot get config for " ++ vm.vtype ++ " " ++ vm.vmid ++
            " on " ++ vm.node ++ ": " ++ e])
    | .ok none => ([], [])
    | .ok (some entries) =>
      (entries.filterMap (fun kv =>
        if vm.vtype = "qemu" then
          if ¬(startsWithL "scsi" kv.1 ∨ startsWithL "ide" kv.1 ∨
               startsWithL "virtio" kv.1) then none
          else if hasSubstr cdromMarker kv.2.data then none
          else extract_disk_info cluster_name vm.node vm.vmid vm.vmname kv.1 kv.2
        else
          if ¬(kv.1 = "rootfs" ∨ startsWithL "mp" kv.1) then none
          else extract_disk_info cluster_name vm.node vm.vmid vm.vmname kv.1 kv.2),
       [])
  else ([], [])

/-! ## The `as_completed` collection loop (the Parallel Fetch Orchestrator)

Each submitted task is one `(vm_entry, outcome)` pair; `.ok rows` is a task
whose `future.result()` returned rows, `.error e` one that raised.  The
thread pool completes tasks in an arbitrary order, so the loop is stated
over an arbitrarily ordered list and permutation-invariance is proved. -/

/-- The `"Error processing ..."` diagnostic line of the collection loop. -/
def errLine (vm : VmEntry) (e : String) : String :=
  "Error processing " ++ vm.vtype ++ " " ++ vm.vmid ++ " on " ++ vm.node ++ ": " ++ e

/-- The `for future in as_completed(...)` loop of `main`: accumulates rows
from successful tasks, a diagnostic line per failed task, and the number of
tasks processed. -/
def collectLoop (results : List (VmEntry × Except String (List DiskRow))) :
    List DiskRow × List String × Nat :=
  results.foldl
    (fun acc p =>
      match p.2 with
      | .ok disk_rows => (acc.1 ++ disk_rows, acc.2.1, acc.2.2 + 1)
      | .error e => (acc.1, acc.2.1 ++ [errLine p.1 e], acc.2.2 + 1))
    ([], [], 0)

/-- The records contributed by one completed task: its rows on success,
nothing on failure. -/
def okRecords (p : VmEntry × Except String (List DiskRow)) : Option (List DiskRow) :=
  match p.2 with
  | .ok l => some l
  | .error _ => none

/-- The diagnostic line contributed by one completed task: one line on
failure, nothing on success. -/
def errRecord (p : VmEntry × Except String (List DiskRow)) : Option String :=
  match p.2 with
  | .ok _ => none
  | .error e => some (errLine p.1 e)

/-! ## Aggregation views -/

/-- Association-list lookup with decidable key equality (Python `dict`
access; first — and by construction only — binding wins). -/
def alookup {κ ν : Type} [DecidableEq κ] (k : κ) : List (κ × ν) → Option ν
  | [] => none
  | e :: es => if e.1 = k then some e.2 else alookup k es

/-- Python `dict` update preserving insertion order: if `k` is present,
apply `f` to its value in place; otherwise append `(k, init)` at the end. -/
def upsert {κ ν : Type} [DecidableEq κ] (l : List (κ × ν)) (k : κ) (f : ν → ν)
    (init : ν) : List (κ × ν) :=
  if (alookup k l).isSome then
    l.map (fun e => if e.1 = k then (e.1, f e.2) else e)
  else l ++ [(k, init)]

/-- Accumulator value of the per-VM view: first-seen metadata plus the
running total (`totals[vmid]` in `main`). -/
structure VMTotalAcc where
  cluster : String
  node : String
  vmname : String
  total_size_MB : Int
deriving DecidableEq, Repr

/-- The per-VM accumulation of `main` (`--total-per-vm`): keyed by `vmid`;
on first sight the record's metadata is stored with total `0` and the size
added, so the initial total is `size_mb`. -/
def total_per_vm (rows : List DiskRow) : List (String × VMTotalAcc) :=
  rows.foldl
    (fun totals r =>
      upsert totals r.vmid
        (fun v => { v with total_size_MB := v.total_size_MB + r.size_mb })
        { cluster := r.cluster, node := r.node, vmname := r.vmname,
          total_size_MB := r.size_mb })
    []

/-- One output row of the per-VM view. -/
structure VmTotalRow where
  cluster : String
  node : String
  vmid : String
  vmname : String
  total_size_MB : Int
deriving DecidableEq, Repr

/-- The per-VM result rows, in dictionary (first-seen) order, before the
final sort. -/
def total_per_vm_rows (rows : List DiskRow) : List VmTotalRow :=
  (total_per_vm rows).map (fun e =>
    { cluster := e.2.cluster, node := e.2.node, vmid := e.1,
      vmname := e.2.vmname, total_size_MB := e.2.total_size_MB })

/-- The per-node accumulation of `main` (`--total-per-node`):
`defaultdict(int)` keyed by node. -/
def total_per_node (rows : List DiskRow) : List (String × Int) :=
  rows.foldl (fun totals r => upsert totals r.node (fun v => v + r.size_mb) r.size_mb) []

/-- The per-node view's total for one node (0 when the node is absent,
matching `defaultdict(int)`). -/
def perNodeTotal (rows : List DiskRow) (n : String) : Int :=
  (alookup n (total_per_node rows)).getD 0

/-- Sum of the per-VM view's totals restricted to the workloads whose
reported (first-seen) node is `n`. -/
def perVmNodeSum (rows : List DiskRow) (n : String) : Int :=
  (((total_per_vm_rows rows).filter (fun vr => vr.node == n)).map
    (fun vr => vr.total_size_MB)).sum

/-- Sum of `size_mb` over the records situated on node `n`. -/
def sumSizesOnNode (rows : List DiskRow) (n : String) : Int :=
  ((rows.filter (fun r => r.node == n)).map (fun r => r.size_mb)).sum

/-- Sum of the running totals over the per-VM accumulator entries whose
stored (first-seen) node is `n`. -/
def sumVmAccOnNode (l : List (String × VMTotalAcc)) (n : String) : Int :=
  ((l.filter (fun e => e.2.node == n)).map (fun e => e.2.total_size_MB)).sum

/-- The per-(VM, storage) accumulation of `main` (`--vm-per-storage`):
keyed by `(node, vmid, vmname, storage)`. -/
def vm_stor_totals (rows : List DiskRow) :
    List ((String × String × String × String) × Int) :=
  rows.foldl
    (fun totals r =>
      upsert totals (r.node, r.vmid, r.vmname, r.storage) (fun v => v + r.size_mb)
        r.size_mb)
    []

/-- The `vm_meta` side map of `main`: plain dict assignment, so the
last-seen `(cluster, vmname)` wins. -/
def vm_meta (rows : List DiskRow) :
    List ((String × String × String × String) × (String × String)) :=
  rows.foldl
    (fun meta r =>
      upsert meta (r.node, r.vmid, r.vmname, r.storage) (fun _ => (r.cluster, r.vmname))
        (r.cluster, r.vmname))
    []

/-- One output row of the per-(VM, storage) view. -/
structure VmStorRow where
  cluster : String
  node : String
  vmid : String
  vmname : String
  storage : String
  size_MB : Int
deriving DecidableEq, Repr

/-- The per-(VM, storage) result rows, in dictionary order, before the
final sort. -/
def vm_per_storage_rows (rows : List DiskRow) : List VmStorRow :=
  let meta := vm_meta rows
  (vm_stor_totals rows).map (fun e =>
    let cm := (alookup e.1 meta).getD ("", "")
    { cluster := cm.1, node := e.1.1, vmid := e.1.2.1, vmname := cm.2,
      storage := e.1.2.2.2, size_MB := e.2 })

/-! ## IEEE-754 binary64 arithmetic for the storage-percentage path

The percentages of `--list-storages` are computed in Python as
`used_pct = (used_mb * 100.0) / total_mb` and `avail_pct = 100.0 - used_pct`
— double arithmetic with an arbitrary integer denominator, so the doubles
must be modelled, not the exact rationals.  A binary64 value is a pair
`(m, e)` denoting `m * 2^e` with `m = 0` or `2^52 ≤ |m| < 2^53`; every
operation rounds the exact rational result to nearest, ties to even —
exactly IEEE-754, with an unbounded exponent (overflow and subnormals are
unreachable from real byte counts, and CPython raises `OverflowError` on
int-to-float conversion beyond the normal range anyway). -/

/-- Floor base-2 logarithm by structural recursion on a fuel argument
(`fuel = n` always suffices); kernel-reducible, unlike `Nat.log2`. -/
def log2fuel : Nat → Nat → Nat
  | 0, _ => 0
  | fuel + 1, n => if n < 2 then 0 else log2fuel fuel (n / 2) + 1

/-- Floor base-2 logarithm of a positive natural. -/
def natLog2 (n : Nat) : Nat := log2fuel n n

/-- Round the positive rational `num / den` (both positive) to the nearest
binary64 value `(m, e)` with `2^52 ≤ m < 2^53`, ties to even: locate the
floor exponent `f` (so `2^f ≤ num/den < 2^(f+1)`, with `f` one of
`log2 num - log2 den` or its predecessor), scale to `[2^52, 2^53)`, and
round the integer quotient to nearest-even, renormalizing a carry. -/
def posRoundToDouble (num den : Nat) : Int × Int :=
  let ln := natLog2 num
  let ld := natLog2 den
  let g : Int := (ln : Int) - (ld : Int)
  let f : Int :=
    if (if 0 ≤ g then den * 2 ^ g.toNat ≤ num else den ≤ num * 2 ^ (-g).toNat)
    then g else g - 1
  let e : Int := f - 52
  let ND : Nat × Nat :=
    if 0 ≤ e then (num, den * 2 ^ e.toNat) else (num * 2 ^ (-e).toNat, den)
  let q := ND.1 / ND.2
  let r := ND.1 % ND.2
  let m := if 2 * r < ND.2 then q else if ND.2 < 2 * r then q + 1
           else if q % 2 = 0 then q else q + 1
  if m = 2 ^ 53 then ((2 ^ 52 : Nat), e + 1) else ((m : Int), e)

/-- Correctly rounded conversion of the rational `num / den` (`den > 0`)
to binary64 (round to nearest, ties to even). -/
def doubleOfRat (num den : Int) : Int × Int :=
  if num = 0 then (0, 0)
  else
    let p := posRoundToDouble num.natAbs den.natAbs
    (if num < 0 then -p.1 else p.1, p.2)

/-- Exact value of a binary64 pair as a rational `num / den` with a
positive power-of-two denominator. -/
def ratOfDouble (x : Int × Int) : Int × Int :=
  if 0 ≤ x.2 then (x.1 * 2 ^ x.2.toNat, 1) else (x.1, (2 ^ (-x.2).toNat : Int))

/-- Correctly rounded int-to-double conversion, Python `float(n)`. -/
def doubleOfInt (n : Int) : Int × Int := doubleOfRat n 1

/-- IEEE-754 binary64 multiplication: round the exact product. -/
def dmul (x y : Int × Int) : Int × Int :=
  doubleOfRat ((ratOfDouble x).1 * (ratOfDouble y).1)
    ((ratOfDouble x).2 * (ratOfDouble y).2)

/-- IEEE-754 binary64 division: round the exact quotient. -/
def ddiv (x y : Int × Int) : Int × Int :=
  let num := (ratOfDouble x).1 * (ratOfDouble y).2
  let den := (ratOfDouble x).2 * (ratOfDouble y).1
  if den < 0 then doubleOfRat (-num) (-den) else doubleOfRat num den

/-- IEEE-754 binary64 subtraction: round the exact difference. -/
def dsub (x y : Int × Int) : Int × Int :=
  doubleOfRat
    ((ratOfDouble x).1 * (ratOfDouble y).2 - (ratOfDouble y).1 * (ratOfDouble x).2)
    ((ratOfDouble x).2 * (ratOfDouble y).2)

/-- CPython `f"{x:.2f}"` on a double: correctly rounded 2-decimal
rendering (ties to even) of the double's EXACT dyadic value, which is what
CPython's float formatting produces. -/
def fmtDouble2 (x : Int × Int) : String :=
  fmtFixed2 (ratOfDouble x).1 (ratOfDouble x).2

/-- The formatted `used_pct` of the storage view when `total_mb > 0`:
Python `f"{(used_mb * 100.0) / total_mb:.2f}"`, every step in binary64. -/
def used_pct_str (used_mb total_mb : Int) : String :=
  fmtDouble2 (ddiv (dmul (doubleOfInt used_mb) (doubleOfInt 100)) (doubleOfInt total_mb))

/-- The formatted `avail_pct` of the storage view when `total_mb > 0`:
Python `f"{100.0 - (used_mb * 100.0) / total_mb:.2f}"`, in binary64. -/
def avail_pct_str (used_mb total_mb : Int) : String :=
  fmtDouble2 (dsub (doubleOfInt 100)
    (ddiv (dmul (doubleOfInt used_mb) (doubleOfInt 100)) (doubleOfInt total_mb)))

/-! ## Storage-pool inventory rows (`--list-storages`) -/

/-- One row of the storage-pool inventory view (`stype` embeds the source's
`"type"` key, which is a reserved word here). -/
structure StorageStatusRow where
  cluster : String
  node : String
  storage : String
  stype : String
  total_MB : Int
  used_MB : Int
  available_MB : Int
  used_pct : String
  available_pct : String
deriving DecidableEq, Repr

/-- The row construction of the `--list-storages` branch of `main`, from
the byte-denominated `total`/`used`/`avail` figures of one
`(node, storage)` status: floor-divide by `1024*1024` (guarded by Python
truthiness); when `total_mb > 0` compute
`used_pct = (used_mb * 100.0) / total_mb` and
`avail_pct = 100.0 - used_pct` in binary64 and format the resulting
doubles with two decimals, else format `0.0` for BOTH percentages. -/
def mkStorageRow (cluster_name node_name storage_id stype : String)
    (total_b used_b avail_b : Int) : StorageStatusRow :=
  let total_mb := if total_b ≠ 0 then Int.fdiv total_b (1024 * 1024) else 0
  let used_mb := if used_b ≠ 0 then Int.fdiv used_b (1024 * 1024) else 0
  let avail_mb := if avail_b ≠ 0 then Int.fdiv avail_b (1024 * 1024) else 0
  let pcts : String × String :=
    if 0 < total_mb then
      (used_pct_str used_mb total_mb, avail_pct_str used_mb total_mb)
    else (fmtFixed2 0 1, fmtFixed2 0 1)
  { cluster := cluster_name, node := node_name, storage := storage_id, stype := stype,
    total_MB := total_mb, used_MB := used_mb, available_MB := avail_mb,
    used_pct := pcts.1, available_pct := pcts.2 }

/-! ## The empty-inventory early exit of `main` -/

/-- What `main` prints and returns when the filtered inventory is empty. -/
structure EmptyInvOut where
  lines : List String
  exitCode : Nat
deriving DecidableEq, Repr

/-- The CSV header of the default per-disk view. -/
def csvDiskHeader : String := "cluster;node;vmid;vmname;storage;vmdisk;size;size_MB"

/-- The `if not vm_entries:` block of `main`: in CSV mode with the default
view and headers enabled the header line is printed; in every other case —
including table mode, where the branch is `pass` — nothing is printed; the
process then exits with status 0. -/
def emptyInventoryOutput (output : String) (tpv tpn vps nh : Bool) : EmptyInvOut :=
  { lines :=
      if (output == "csv") && !(tpv || tpn || vps) && !nh then [csvDiskHeader]
      else [],
    exitCode := 0 }

/-! ## The final sorts of the per-disk, per-VM and per-(VM, storage) views

Python's `list.sort(key=...)` computes every key up front (raising
`ValueError` — modelled as `none` — as soon as one `int(vmid)` fails) and
then sorts stably by the key tuples. -/

/-- Stable insertion of `x` into a sorted list: `x` goes before the first
element it is `le`-related to (elements already in the list that compare
equal stay in front, preserving stability for a `foldr`-built sort). -/
def insertSorted {α : Type} (le : α → α → Bool) (x : α) : List α → List α
  | [] => [x]
  | y :: ys => if le x y then x :: y :: ys else y :: insertSorted le x ys

/-- Stable sort by a boolean `le` (insertion sort; Python's sort is stable,
and only stability and the ordering matter here). -/
def sortByKey {α : Type} (le : α → α → Bool) (l : List α) : List α :=
  l.foldr (insertSorted le) []

/-- Compute `f` over a list, failing (like a raised exception) as soon as
one element fails. -/
def mapOpt {α β : Type} (f : α → Option β) : List α → Option (List β)
  | [] => some []
  | x :: xs =>
    match f x with
    | none => none
    | some y =>
      match mapOpt f xs with
      | none => none
      | some ys => some (y :: ys)

/-- Lexicographic order on the per-disk sort key
`(node, int(vmid), storage, vmdisk)`. -/
def leKeyDisk (a b : String × Int × String × String) : Bool :=
  if a.1 < b.1 then true else if b.1 < a.1 then false
  else if a.2.1 < b.2.1 then true else if b.2.1 < a.2.1 then false
  else if a.2.2.1 < b.2.2.1 then true else if b.2.2.1 < a.2.2.1 then false
  else if a.2.2.2 < b.2.2.2 then true else if b.2.2.2 < a.2.2.2 then false
  else true

/-- Sort key of the per-disk view: `(r["node"], int(r["vmid"]),
r["storage"], r["vmdisk"])`. -/
def diskKey (r : DiskRow) : Option (String × Int × String × String) :=
  (pyIntCore r.vmid.data).map (fun i => (r.node, i, r.storage, r.vmdisk))

/-- The final sort of the per-disk view; `none` models the uncaught
`ValueError` from `int(vmid)`. -/
def sortDiskRows (rows : List DiskRow) : Option (List DiskRow) :=
  match mapOpt (fun r => (diskKey r).map (fun k => (k, r))) rows with
  | none => none
  | some keyed => some ((sortByKey (fun a b => leKeyDisk a.1 b.1) keyed).map (fun p => p.2))

/-- Lexicographic order on the per-VM sort key `(node, int(vmid))`. -/
def leKeyVm (a b : String × Int) : Bool :=
  if a.1 < b.1 then true else if b.1 < a.1 then false
  else if a.2 < b.2 then true else if b.2 < a.2 then false
  else true

/-- Sort key of the per-VM view. -/
def vmKey (r : VmTotalRow) : Option (String × Int) :=
  (pyIntCore r.vmid.data).map (fun i => (r.node, i))

/-- The final sort of the per-VM view over its aggregated rows. -/
def sortVmTotalRows (rows : List DiskRow) : Option (List VmTotalRow) :=
  match mapOpt (fun r => (vmKey r).map (fun k => (k, r))) (total_per_vm_rows rows) with
  | none => none
  | some keyed => some ((sortByKey (fun a b => leKeyVm a.1 b.1) keyed).map (fun p => p.2))

/-- Lexicographic order on the per-(VM, storage) sort key
`(node, int(vmid), storage)`. -/
def leKeyStor (a b : String × Int × String) : Bool :=
  if a.1 < b.1 then true else if b.1 < a.1 then false
  else if a.2.1 < b.2.1 then true else if b.2.1 < a.2.1 then false
  else if a.2.2 < b.2.2 then true else if b.2.2 < a.2.2 then false
  else true

/-- Sort key of the per-(VM, storage) view. -/
def storKey (r : VmStorRow) : Option (String × Int × String) :=
  (pyIntCore r.vmid.data).map (fun i => (r.node, i, r.storage))

/-- The final sort of the per-(VM, storage) view over its aggregated rows. -/
def sortVmStorRows (rows : List DiskRow) : Option (List VmStorRow) :=
  match mapOpt (fun r => (storKey r).map (fun k => (k, r))) (vm_per_storage_rows rows) with
  | none => none
  | some keyed => some ((sortByKey (fun a b => leKeyStor a.1 b.1) keyed).map (fun p => p.2))

/-! ## Helper lemmas about the Python primitives -/

theorem mem_of_head?_eq {l : List Char} {c : Char} (h : l.head? = some c) : c ∈ l := by
  cases l <;> simp_all

theorem mem_dropWhile_of_not {p : Char → Bool} {c : Char} :
    ∀ {l : List Char}, c ∈ l → p c = false → c ∈ l.dropWhile p := by
  intro l
  induction l with
  | nil => simp
  | cons a rest ih =>
    intro hc hp
    rw [List.dropWhile_cons]
    by_cases ha : p a
    · simp only [ha, if_true]
      rcases List.mem_cons.mp hc with h | h
      · subst h; simp_all
      · exact ih h hp
    · simp only [ha]
      simpa using hc

theorem mem_of_mem_dropWhile {p : Char → Bool} {c : Char} {l : List Char}
    (h : c ∈ l.dropWhile p) : c ∈ l :=
  (List.dropWhile_sublist (l := l) p).subset h

theorem mem_of_mem_takeWhile {p : Char → Bool} {c : Char} {l : List Char}
    (h : c ∈ l.takeWhile p) : c ∈ l :=
  (List.takeWhile_sublist (l := l) p).subset h

theorem mem_of_mem_pyTrim {c : Char} {l : List Char} (h : c ∈ pyTrim l) : c ∈ l := by
  unfold pyTrim at h
  have h1 := List.mem_reverse.mp h
  have h2 := List.mem_reverse.mp (mem_of_mem_dropWhile h1)
  exact mem_of_mem_dropWhile h2

theorem mem_pyTrim_of_not_space {c : Char} {l : List Char} (hc : c ∈ l)
    (hp : pyIsSpace c = false) : c ∈ pyTrim l := by
  unfold pyTrim
  refine List.mem_reverse.mpr (mem_dropWhile_of_not (List.mem_reverse.mpr ?_) hp)
  exact mem_dropWhile_of_not hc hp

theorem validTail_mem : ∀ (l : List Char) (b : Bool), validTail b l = true →
    ∀ c ∈ l, c.isDigit = true ∨ c = '_' := by
  intro l
  induction l with
  | nil => simp
  | cons a rest ih =>
    intro b h c hc
    unfold validTail at h
    by_cases ha : a = '_'
    · subst ha
      simp only [if_pos rfl] at h
      cases b with
      | true => simp at h
      | false =>
        simp only [Bool.false_eq_true, if_false] at h
        rcases List.mem_cons.mp hc with h' | h'
        · right; exact h'
        · exact ih true h c h'
    · simp only [if_neg ha, Bool.and_eq_true] at h
      rcases List.mem_cons.mp hc with h' | h'
      · subst h'; left; exact h.1
      · exact ih false h.2 c h'

theorem digitsOk_mem {l : List Char} (h : digitsOk l = true) :
    ∀ c ∈ l, c.isDigit = true ∨ c = '_' := by
  cases l with
  | nil => simp
  | cons a rest =>
    unfold digitsOk at h
    rw [Bool.and_eq_true] at h
    intro c hc
    rcases List.mem_cons.mp hc with h' | h'
    · subst h'; left; exact h.1
    · exact validTail_mem rest false h.2 c h'

theorem digitsOk_of_dot {l : List Char} (h : '.' ∈ l) : digitsOk l = false := by
  cases hd : digitsOk l
  · rfl
  · rcases digitsOk_mem hd '.' h with h' | h' <;> simp_all

theorem pyIntCore_dot_none {l : List Char} (h : '.' ∈ l) : pyIntCore l = none := by
  have ht : '.' ∈ pyTrim l := mem_pyTrim_of_not_space h (by decide)
  unfold pyIntCore
  split
  · rename_i hh
    have : '.' ∈ (pyTrim l).tail := by
      cases hl : pyTrim l with
      | nil => simp [hl] at ht
      | cons a rest =>
        rw [hl] at hh ht
        simp only [List.head?_cons, Option.some.injEq] at hh
        subst hh
        rcases List.mem_cons.mp ht with h' | h'
        · exact absurd h' (by decide)
        · simpa using h'
    rw [digitsOk_of_dot this]
    simp
  · split
    · rename_i hh
      have : '.' ∈ (pyTrim l).tail := by
        cases hl : pyTrim l with
        | nil => simp [hl] at ht
        | cons a rest =>
          rw [hl] at hh ht
          simp only [List.head?_cons, Option.some.injEq] at hh
          subst hh
          rcases List.mem_cons.mp ht with h' | h'
          · exact absurd h' (by decide)
          · simpa using h'
      rw [digitsOk_of_dot this]
      simp
    · rw [digitsOk_of_dot ht]
      simp

theorem isDigit_not_space {c : Char} (h : c.isDigit = true) : pyIsSpace c = false := by
  cases hs : pyIsSpace c
  · rfl
  · unfold pyIsSpace at hs
    simp only [Bool.or_eq_true, beq_iff_eq] at hs
    rcases hs with (((((h' | h') | h') | h') | h') | h') <;> subst h' <;> simp at h

theorem isDigit_ne_underscore {c : Char} (h : c.isDigit = true) : c ≠ '_' := by
  intro he; subst he; simp at h

theorem all_digits_validTail : ∀ (l : List Char), (∀ c ∈ l, c.isDigit = true) →
    validTail false l = true := by
  intro l
  induction l with
  | nil => intro _; rfl
  | cons a rest ih =>
    intro h
    have ha := h a (List.mem_cons_self a rest)
    unfold validTail
    rw [if_neg (isDigit_ne_underscore ha)]
    rw [Bool.and_eq_true]
    exact ⟨ha, ih (fun c hc => h c (List.mem_cons_of_mem a hc))⟩

theorem all_digits_digitsOk {l : List Char} (hne : l ≠ [])
    (h : ∀ c ∈ l, c.isDigit = true) : digitsOk l = true := by
  cases l with
  | nil => exact absurd rfl hne
  | cons a rest =>
    unfold digitsOk
    rw [Bool.and_eq_true]
    exact ⟨h a (List.mem_cons_self a rest),
      all_digits_validTail rest (fun c hc => h c (List.mem_cons_of_mem a hc))⟩

theorem pyTrim_all_digits {l : List Char} (h : ∀ c ∈ l, c.isDigit = true) :
    pyTrim l = l := by
  unfold pyTrim
  have h1 : l.dropWhile pyIsSpace = l := by
    cases l with
    | nil => rfl
    | cons a rest =>
      rw [List.dropWhile_cons, if_neg]
      simp [isDigit_not_space (h a (List.mem_cons_self a rest))]
  rw [h1]
  have h2 : l.reverse.dropWhile pyIsSpace = l.reverse := by
    cases hr : l.reverse with
    | nil => rfl
    | cons a rest =>
      rw [List.dropWhile_cons, if_neg]
      have : a ∈ l := List.mem_reverse.mp (by rw [hr]; exact List.mem_cons_self a rest)
      simp [isDigit_not_space (h a this)]
  rw [h2, List.reverse_reverse]

theorem pyIntCore_all_digits {l : List Char} (hne : l ≠ [])
    (h : ∀ c ∈ l, c.isDigit = true) :
    pyIntCore l = some ((digitsVal l : Nat) : Int) := by
  unfold pyIntCore
  rw [pyTrim_all_digits h]
  cases l with
  | nil => exact absurd rfl hne
  | cons a rest =>
    have ha := h a (List.mem_cons_self a rest)
    have h1 : (a :: rest).head? ≠ some '-' := by
      simp only [List.head?_cons, ne_eq, Option.some.injEq]
      intro he; subst he; simp at ha
    have h2 : (a :: rest).head? ≠ some '+' := by
      simp only [List.head?_cons, ne_eq, Option.some.injEq]
      intro he; subst he; simp at ha
    rw [if_neg h1, if_neg h2, if_pos (all_digits_digitsOk hne h)]

theorem pyIntCore_nonneg {l : List Char} (hm : '-' ∉ l) :
    ∀ {v : Int}, pyIntCore l = some v → 0 ≤ v := by
  intro v hv
  have hmt : '-' ∉ pyTrim l := fun h => hm (mem_of_mem_pyTrim h)
  unfold pyIntCore at hv
  split at hv
  · rename_i hh
    exact absurd (mem_of_head?_eq hh) hmt
  · split at hv
    · split at hv
      · injection hv with hv'
        subst hv'
        exact Int.natCast_nonneg _
      · simp at hv
    · split at hv
      · injection hv with hv'
        subst hv'
        exact Int.natCast_nonneg _
      · simp at hv

theorem applyUnit_nonneg {u : Char} {n : Int} (h : 0 ≤ n) : 0 ≤ applyUnit u n := by
  unfold applyUnit
  split_ifs
  · exact Int.fdiv_nonneg h (by norm_num)
  · exact h
  · exact mul_nonneg h (by norm_num)
  · exact mul_nonneg (mul_nonneg h (by norm_num)) (by norm_num)
  · exact h

theorem mem_of_mem_truncDot {c : Char} {l : List Char} (h : c ∈ truncDot l) : c ∈ l := by
  unfold truncDot at h
  split at h
  · exact mem_of_mem_takeWhile h
  · exact h

theorem parseSizeCore_concat_unit (cs : List Char) (u : Char) (h : u.isDigit = false) :
    parseSizeCore (cs ++ [u]) = (pyIntCore (truncDot cs)).map (applyUnit u.toUpper) := by
  unfold parseSizeCore
  rw [show (cs ++ [u]).reverse = u :: cs.reverse by simp]
  simp only [List.reverse_reverse, h, Bool.false_eq_true, if_false]
  cases hpc : pyIntCore (truncDot cs) <;> simp

theorem parseSizeCore_nonneg {l : List Char} (hm : '-' ∉ l) :
    ∀ {v : Int}, parseSizeCore l = some v → 0 ≤ v := by
  intro v hv
  unfold parseSizeCore at hv
  split at hv
  · simp at hv
  · rename_i unit rev_rest hrev
    split at hv
    · exact pyIntCore_nonneg hm hv
    · split at hv
      · simp at hv
      · rename_i num hnum
        injection hv with hv'
        subst hv'
        refine applyUnit_nonneg (pyIntCore_nonneg ?_ hnum)
        intro hmem
        refine hm ?_
        have h1 : '-' ∈ rev_rest.reverse := mem_of_mem_truncDot hmem
        have h2 : '-' ∈ rev_rest := List.mem_reverse.mp h1
        have h3 : '-' ∈ l.reverse := by rw [hrev]; exact List.mem_cons_of_mem _ h2
        exact List.mem_reverse.mp h3

theorem afterLast_cons_some {m : List Char} {a : Char} {rest r : List Char}
    (h : afterLast m rest = some r) : afterLast m (a :: rest) = some r := by
  unfold afterLast
  rw [h]

theorem afterLast_cons_none {m : List Char} {a : Char} {rest : List Char}
    (h : afterLast m rest = none) :
    afterLast m (a :: rest) =
      (if m.isPrefixOf (a :: rest) then some ((a :: rest).drop m.length) else none) := by
  unfold afterLast
  rw [h]

theorem afterLast_subset {m : List Char} :
    ∀ {l r : List Char}, afterLast m l = some r → ∀ c ∈ r, c ∈ l := by
  intro l
  induction l with
  | nil => simp [afterLast]
  | cons a rest ih =>
    intro r h c hc
    cases hrec : afterLast m rest with
    | some r' =>
      rw [afterLast_cons_some hrec] at h
      injection h with h
      subst h
      exact List.mem_cons_of_mem a (ih hrec c hc)
    | none =>
      rw [afterLast_cons_none hrec] at h
      split at h
      · injection h with h
        subst h
        exact List.drop_subset _ _ hc
      · simp at h

theorem takeWhile_append_dot (frac : List Char) :
    ∀ (num : List Char), '.' ∉ num →
      (num ++ '.' :: frac).takeWhile (fun c => c != '.') = num := by
  intro num
  induction num with
  | nil => simp [List.takeWhile_cons]
  | cons a rest ih =>
    intro h
    have ha : a ≠ '.' := by
      intro he
      exact h (by rw [← he]; exact List.mem_cons_self a rest)
    have hrest : '.' ∉ rest := fun h' => h (List.mem_cons_of_mem a h')
    simp only [List.cons_append, List.takeWhile_cons, bne_iff_ne, ne_eq, ha,
      not_false_eq_true, if_true, ih hrest]

theorem truncDot_append_dot {num : List Char} (frac : List Char) (h : '.' ∉ num) :
    truncDot (num ++ '.' :: frac) = num := by
  unfold truncDot
  rw [if_pos (by simp), takeWhile_append_dot frac num h]

theorem truncDot_of_not_dot {num : List Char} (h : '.' ∉ num) : truncDot num = num := by
  unfold truncDot
  rw [if_neg (by simp [h])]

/-! ## Helper lemmas about `alookup` and `upsert` -/

section AssocLemmas

variable {κ ν : Type} [DecidableEq κ]

theorem alookup_cons (k : κ) (e : κ × ν) (es : List (κ × ν)) :
    alookup k (e :: es) = if e.1 = k then some e.2 else alookup k es := rfl

theorem alookup_map_update (k : κ) (f : ν → ν) :
    ∀ (l : List (κ × ν)),
      alookup k (l.map (fun e => if e.1 = k then (e.1, f e.2) else e)) =
        (alookup k l).map f := by
  intro l
  induction l with
  | nil => rfl
  | cons e es ih =>
    by_cases he : e.1 = k
    · simp [alookup, he, ih]
    · simp [alookup, he, ih]

theorem alookup_map_update_ne {k k' : κ} (f : ν → ν) (hne : k' ≠ k) :
    ∀ (l : List (κ × ν)),
      alookup k' (l.map (fun e => if e.1 = k then (e.1, f e.2) else e)) =
        alookup k' l := by
  intro l
  induction l with
  | nil => rfl
  | cons e es ih =>
    simp only [List.map_cons]
    by_cases hek' : e.1 = k'
    · have hek : e.1 ≠ k := by rw [hek']; exact hne
      rw [if_neg hek]
      simp [alookup, hek']
    · have hfst : (if e.1 = k then (e.1, f e.2) else e).1 = e.1 := by split <;> rfl
      rw [alookup_cons, alookup_cons, hfst, if_neg hek', if_neg hek']
      exact ih

theorem alookup_append (k : κ) :
    ∀ (l l₂ : List (κ × ν)),
      alookup k (l ++ l₂) = ((alookup k l).orElse (fun _ => alookup k l₂)) := by
  intro l l₂
  induction l with
  | nil => simp [alookup, Option.orElse]
  | cons e es ih =>
    by_cases he : e.1 = k
    · simp [alookup, he, Option.orElse]
    · simp [alookup, he, ih]

theorem alookup_upsert_self (l : List (κ × ν)) (k : κ) (f : ν → ν) (i : ν) :
    alookup k (upsert l k f i) =
      some (match alookup k l with | some v => f v | none => i) := by
  unfold upsert
  by_cases h : (alookup k l).isSome
  · rw [if_pos h, alookup_map_update]
    obtain ⟨v, hv⟩ := Option.isSome_iff_exists.mp h
    rw [hv]
    rfl
  · rw [if_neg h, alookup_append]
    rw [Option.not_isSome_iff_eq_none.mp h]
    simp [alookup, Option.orElse]

theorem alookup_upsert_ne (l : List (κ × ν)) {k k' : κ} (f : ν → ν) (i : ν)
    (hne : k' ≠ k) : alookup k' (upsert l k f i) = alookup k' l := by
  unfold upsert
  split
  · exact alookup_map_update_ne f hne l
  · rw [alookup_append]
    have h2 : alookup k' [(k, i)] = none := by
      simp [alookup, Ne.symm hne]
    rw [h2]
    cases alookup k' l <;> rfl

theorem keys_map_update (l : List (κ × ν)) (k : κ) (f : ν → ν) :
    (l.map (fun e => if e.1 = k then (e.1, f e.2) else e)).map Prod.fst =
      l.map Prod.fst := by
  rw [List.map_map]
  apply List.map_congr_left
  intro e _
  by_cases h : e.1 = k <;> simp [h]

theorem alookup_isSome_iff_mem_keys (k : κ) :
    ∀ (l : List (κ × ν)), (alookup k l).isSome = true ↔ k ∈ l.map Prod.fst := by
  intro l
  induction l with
  | nil => simp [alookup]
  | cons e es ih =>
    by_cases he : e.1 = k
    · simp [alookup, he]
    · simp only [alookup, he, if_false, List.map_cons, List.mem_cons, ih]
      constructor
      · exact Or.inr
      · rintro (h | h)
        · exact absurd h.symm he
        · exact h

theorem mem_keys_upsert (l : List (κ × ν)) (k x : κ) (f : ν → ν) (i : ν) :
    x ∈ (upsert l k f i).map Prod.fst ↔ x ∈ l.map Prod.fst ∨ x = k := by
  unfold upsert
  split
  · rename_i h
    rw [keys_map_update]
    constructor
    · exact Or.inl
    · rintro (h' | h')
      · exact h'
      · subst h'
        exact (alookup_isSome_iff_mem_keys x l).mp h
  · simp [List.map_append]

theorem keys_nodup_upsert (l : List (κ × ν)) (k : κ) (f : ν → ν) (i : ν)
    (h : (l.map Prod.fst).Nodup) : ((upsert l k f i).map Prod.fst).Nodup := by
  unfold upsert
  split
  · rw [keys_map_update]
    exact h
  · rename_i habs
    have hk : k ∉ l.map Prod.fst := by
      rw [← alookup_isSome_iff_mem_keys]
      simpa using habs
    simp only [List.map_append, List.map_cons, List.map_nil]
    rw [List.nodup_append]
    refine ⟨h, List.nodup_singleton k, ?_⟩
    intro a ha hb
    rw [List.mem_singleton] at hb
    subst hb
    exact hk ha

end AssocLemmas

/-! ## Helper lemmas about the aggregation folds -/

theorem mem_keys_foldl_upsert {α κ ν : Type} [DecidableEq κ]
    (key : α → κ) (g : α → ν → ν) (init : α → ν) :
    ∀ (rows : List α) (acc : List (κ × ν)) (x : κ),
      (x ∈ (rows.foldl (fun a r => upsert a (key r) (g r) (init r)) acc).map Prod.fst) ↔
        x ∈ acc.map Prod.fst ∨ ∃ r ∈ rows, key r = x := by
  intro rows
  induction rows with
  | nil => simp
  | cons r rest ih =>
    intro acc x
    simp only [List.foldl_cons]
    rw [ih, mem_keys_upsert]
    constructor
    · rintro ((h | h) | ⟨r', hr', hk⟩)
      · exact Or.inl h
      · exact Or.inr ⟨r, List.mem_cons_self r rest, h.symm⟩
      · exact Or.inr ⟨r', List.mem_cons_of_mem r hr', hk⟩
    · rintro (h | ⟨r', hr', hk⟩)
      · exact Or.inl (Or.inl h)
      · rcases List.mem_cons.mp hr' with h' | h'
        · subst h'
          exact Or.inl (Or.inr hk.symm)
        · exact Or.inr ⟨r', h', hk⟩

theorem sumSizesOnNode_cons (r : DiskRow) (rest : List DiskRow) (n : String) :
    sumSizesOnNode (r :: rest) n =
      (if r.node == n then r.size_mb else 0) + sumSizesOnNode rest n := by
  unfold sumSizesOnNode
  by_cases h : (r.node == n) = true <;> simp [List.filter_cons, h]

theorem alookup_foldl_node :
    ∀ (rows : List DiskRow) (acc : List (String × Int)) (n : String),
      (alookup n (rows.foldl
          (fun totals r => upsert totals r.node (fun v => v + r.size_mb) r.size_mb)
          acc)).getD 0
        = (alookup n acc).getD 0 + sumSizesOnNode rows n := by
  intro rows
  induction rows with
  | nil => intro acc n; simp [sumSizesOnNode]
  | cons r rest ih =>
    intro acc n
    simp only [List.foldl_cons]
    rw [ih, sumSizesOnNode_cons]
    have hstep :
        (alookup n (upsert acc r.node (fun v => v + r.size_mb) r.size_mb)).getD 0
          = (alookup n acc).getD 0 + (if r.node == n then r.size_mb else 0) := by
      by_cases hn : r.node = n
      · subst hn
        rw [alookup_upsert_self]
        cases h : alookup r.node acc <;> simp [h]
      · rw [alookup_upsert_ne _ _ _ (fun h => hn h.symm)]
        have hb : (r.node == n) = false := by simp [hn]
        rw [hb]
        simp
    rw [hstep]
    ring

theorem sumVmAcc_cons (e : String × VMTotalAcc) (l : List (String × VMTotalAcc))
    (n : String) :
    sumVmAccOnNode (e :: l) n =
      (if e.2.node == n then e.2.total_size_MB else 0) + sumVmAccOnNode l n := by
  unfold sumVmAccOnNode
  by_cases h : (e.2.node == n) = true <;> simp [List.filter_cons, h]

theorem sumVmAcc_append (l₁ l₂ : List (String × VMTotalAcc)) (n : String) :
    sumVmAccOnNode (l₁ ++ l₂) n = sumVmAccOnNode l₁ n + sumVmAccOnNode l₂ n := by
  unfold sumVmAccOnNode
  simp [List.filter_append]

theorem sumVmAcc_map_update (v : String) (sz : Int) (n nd : String) :
    ∀ (acc : List (String × VMTotalAcc)),
      (∀ e ∈ acc, e.1 = v → e.2.node = nd) →
      (acc.map Prod.fst).Nodup →
      (alookup v acc).isSome = true →
      sumVmAccOnNode (acc.map (fun e => if e.1 = v then
          (e.1, { e.2 with total_size_MB := e.2.total_size_MB + sz }) else e)) n
        = sumVmAccOnNode acc n + (if nd == n then sz else 0) := by
  intro acc
  induction acc with
  | nil =>
    intro _ _ h
    simp [alookup] at h
  | cons e es ih =>
    intro hcons hnodup hsome
    simp only [List.map_cons]
    by_cases he : e.1 = v
    · have hv : v ∉ es.map Prod.fst := by
        rw [← he]
        exact (List.nodup_cons.mp (by simpa using hnodup)).1
      have hid : ∀ e' ∈ es, (if e'.1 = v then
          (e'.1, { e'.2 with total_size_MB := e'.2.total_size_MB + sz }) else e') = e' := by
        intro e' he'
        rw [if_neg]
        intro h'
        exact hv (h' ▸ List.mem_map_of_mem Prod.fst he')
      have hes : es.map (fun e => if e.1 = v then
          (e.1, { e.2 with total_size_MB := e.2.total_size_MB + sz }) else e) = es := by
        rw [show es.map (fun e => if e.1 = v then
            (e.1, { e.2 with total_size_MB := e.2.total_size_MB + sz }) else e)
            = es.map id from List.map_congr_left hid, List.map_id]
      rw [if_pos he, hes, sumVmAcc_cons, sumVmAcc_cons]
      have hnd : e.2.node = nd := hcons e (List.mem_cons_self e es) he
      show (if e.2.node == n then e.2.total_size_MB + sz else 0) + sumVmAccOnNode es n = _
      rw [hnd]
      by_cases hn : (nd == n) = true
      · rw [if_pos hn, if_pos hn, if_pos hn]
        ring
      · rw [if_neg hn, if_neg hn, if_neg hn]
        ring
    · have hsome' : (alookup v es).isSome = true := by
        have : alookup v (e :: es) = alookup v es := by
          rw [alookup_cons, if_neg he]
        rw [← this]
        exact hsome
      have hnodup' : (es.map Prod.fst).Nodup := (List.nodup_cons.mp (by simpa using hnodup)).2
      have hcons' : ∀ e' ∈ es, e'.1 = v → e'.2.node = nd :=
        fun e' he' => hcons e' (List.mem_cons_of_mem e he')
      rw [if_neg he, sumVmAcc_cons, sumVmAcc_cons, ih hcons' hnodup' hsome']
      ring

theorem sumVmAcc_foldl :
    ∀ (rows : List DiskRow) (acc : List (String × VMTotalAcc)) (n : String),
      (∀ r ∈ rows, ∀ r' ∈ rows, r.vmid = r'.vmid → r.node = r'.node) →
      (∀ e ∈ acc, ∀ r ∈ rows, e.1 = r.vmid → e.2.node = r.node) →
      (acc.map Prod.fst).Nodup →
      sumVmAccOnNode (rows.foldl
          (fun totals r =>
            upsert totals r.vmid
              (fun v => { v with total_size_MB := v.total_size_MB + r.size_mb })
              { cluster := r.cluster, node := r.node, vmname := r.vmname,
                total_size_MB := r.size_mb })
          acc) n
        = sumVmAccOnNode acc n + sumSizesOnNode rows n := by
  intro rows
  induction rows with
  | nil =>
    intro acc n _ _ _
    simp [sumSizesOnNode]
  | cons r rest ih =>
    intro acc n hpair hacc hnodup
    simp only [List.foldl_cons]
    have hpair' : ∀ a ∈ rest, ∀ b ∈ rest, a.vmid = b.vmid → a.node = b.node :=
      fun a ha b hb =>
        hpair a (List.mem_cons_of_mem r ha) b (List.mem_cons_of_mem r hb)
    have hacc' : ∀ e ∈ upsert acc r.vmid
        (fun v => { v with total_size_MB := v.total_size_MB + r.size_mb })
        { cluster := r.cluster, node := r.node, vmname := r.vmname,
          total_size_MB := r.size_mb },
        ∀ r' ∈ rest, e.1 = r'.vmid → e.2.node = r'.node := by
      intro e hmem r' hr' hkey
      unfold upsert at hmem
      split at hmem
      · obtain ⟨e₀, he₀, heq⟩ := List.mem_map.mp hmem
        have hkey₀ : e.1 = e₀.1 := by
          rw [← heq]
          split <;> rfl
        have hnode₀ : e.2.node = e₀.2.node := by
          rw [← heq]
          split <;> rfl
        rw [hnode₀]
        exact hacc e₀ he₀ r' (List.mem_cons_of_mem r hr') (by rw [← hkey₀]; exact hkey)
      · rcases List.mem_append.mp hmem with h | h
        · exact hacc e h r' (List.mem_cons_of_mem r hr') hkey
        · rw [List.mem_singleton] at h
          subst h
          simp only at hkey ⊢
          rw [hpair r (List.mem_cons_self r rest) r' (List.mem_cons_of_mem r hr') hkey]
    have hnodup' := keys_nodup_upsert acc r.vmid
      (fun v => { v with total_size_MB := v.total_size_MB + r.size_mb })
      { cluster := r.cluster, node := r.node, vmname := r.vmname,
        total_size_MB := r.size_mb } hnodup
    rw [ih _ n hpair' hacc' hnodup', sumSizesOnNode_cons]
    have hstep : sumVmAccOnNode (upsert acc r.vmid
        (fun v => { v with total_size_MB := v.total_size_MB + r.size_mb })
        { cluster := r.cluster, node := r.node, vmname := r.vmname,
          total_size_MB := r.size_mb }) n
        = sumVmAccOnNode acc n + (if r.node == n then r.size_mb else 0) := by
      unfold upsert
      by_cases hp : (alookup r.vmid acc).isSome = true
      · rw [if_pos hp]
        exact sumVmAcc_map_update r.vmid r.size_mb n r.node acc
          (fun e he hk => hacc e he r (List.mem_cons_self r rest) hk) hnodup hp
      · rw [if_neg hp, sumVmAcc_append, sumVmAcc_cons]
        simp [sumVmAccOnNode]
    rw [hstep]
    ring

/-! ## Helper lemmas about the orchestrator loop -/

theorem collectLoop_foldl :
    ∀ (results : List (VmEntry × Except String (List DiskRow)))
      (a : List DiskRow) (b : List String) (n : Nat),
      results.foldl
        (fun acc p =>
          match p.2 with
          | .ok disk_rows => (acc.1 ++ disk_rows, acc.2.1, acc.2.2 + 1)
          | .error e => (acc.1, acc.2.1 ++ [errLine p.1 e], acc.2.2 + 1))
        (a, b, n)
        = (a ++ (results.filterMap okRecords).flatten,
           b ++ results.filterMap errRecord,
           n + results.length) := by
  intro results
  induction results with
  | nil => intro a b n; simp
  | cons p rest ih =>
    intro a b n
    rcases p with ⟨vm, res⟩
    cases res with
    | ok l =>
      simp only [List.foldl_cons, ih, List.filterMap_cons, okRecords, errRecord,
        List.flatten_cons, List.length_cons]
      refine Prod.ext ?_ (Prod.ext ?_ ?_) <;> simp [List.append_assoc]
      omega
    | error e =>
      simp only [List.foldl_cons, ih, List.filterMap_cons, okRecords, errRecord,
        List.length_cons]
      refine Prod.ext ?_ (Prod.ext ?_ ?_) <;> simp [List.append_assoc]
      omega

/-! ## Helper lemmas about `mapOpt` and the stable sort -/

theorem mapOpt_isSome {α β : Type} (f : α → Option β) :
    ∀ l : List α, (mapOpt f l).isSome = l.all (fun x => (f x).isSome) := by
  intro l
  induction l with
  | nil => rfl
  | cons x xs ih =>
    simp only [mapOpt, List.all_cons]
    cases hf : f x with
    | none => simp
    | some y =>
      cases hm : mapOpt f xs with
      | none => simp [← ih, hm]
      | some ys => simp [← ih, hm]

theorem mapOpt_length {α β : Type} (f : α → Option β) :
    ∀ (l : List α) (l' : List β), mapOpt f l = some l' → l'.length = l.length := by
  intro l
  induction l with
  | nil =>
    intro l' h
    simp only [mapOpt, Option.some.injEq] at h
    subst h
    rfl
  | cons x xs ih =>
    intro l' h
    simp only [mapOpt] at h
    cases hf : f x with
    | none => rw [hf] at h; simp at h
    | some y =>
      rw [hf] at h
      cases hm : mapOpt f xs with
      | none => rw [hm] at h; simp at h
      | some ys =>
        rw [hm] at h
        simp only [Option.some.injEq] at h
        subst h
        simp [ih ys hm]

theorem insertSorted_length {α : Type} (le : α → α → Bool) (x : α) :
    ∀ l : List α, (insertSorted le x l).length = l.length + 1 := by
  intro l
  induction l with
  | nil => rfl
  | cons y ys ih =>
    unfold insertSorted
    split
    · simp
    · simp [ih]

theorem sortByKey_length {α : Type} (le : α → α → Bool) :
    ∀ l : List α, (sortByKey le l).length = l.length := by
  intro l
  induction l with
  | nil => rfl
  | cons x xs ih =>
    unfold sortByKey at ih ⊢
    simp only [List.foldr_cons]
    rw [insertSorted_length, ih]
    rfl

/-! ## Claim C1 — locating the size token -/

/-- C1, counterexample.  The claim says `parse("pool:vol,nosize=1")` returns
null because the spec carries "no `size=` marker as a key"; but the literal
substring `size=` does occur inside `nosize=1`, the permissive `rfind` scan
finds it, and the parser returns a record with size token `"1"`. -/
theorem extract_nosize_spec_parses :
    extract_disk_info "c" "n" "100" "vm" "scsi0" "pool:vol,nosize=1" =
      some { cluster := "c", node := "n", vmid := "100", vmname := "vm",
             storage := "pool", vmdisk := "vol", size := "1", size_mb := 1 } := by
  decide

/-- C1, amended.  The DiskSpec Parser returns null for every spec string in
which the literal substring `size=` does not occur at all (and in
particular for `"no-colon-here"`); the size token is located at the last
occurrence of the substring `size=` anywhere in the spec, so
`"pool:vol,nosize=1"` — where `size=` occurs inside `nosize=1` — parses to
a record with size token `"1"`, not to null. -/
theorem extract_none_of_no_size_marker :
    (∀ cn nd id nm bus spec : String, afterLast sizeMarker spec.data = none →
      extract_disk_info cn nd id nm bus spec = none)
    ∧ extract_disk_info "c" "n" "100" "vm" "scsi0" "no-colon-here" = none
    ∧ extract_disk_info "c" "n" "100" "vm" "scsi0" "pool:vol,nosize=1" =
        some { cluster := "c", node := "n", vmid := "100", vmname := "vm",
               storage := "pool", vmdisk := "vol", size := "1", size_mb := 1 } := by
  refine ⟨?_, by decide, by decide⟩
  intro cn nd id nm bus spec hm
  simp [extract_disk_info, extractCore, hm]

/-- C1, witness for the amended theorem at the marker-free spec
`"pool:vol"`. -/
theorem extract_none_of_no_size_marker_witness :
    extract_disk_info "c" "n" "100" "vm" "scsi0" "pool:vol" = none :=
  extract_none_of_no_size_marker.1 "c" "n" "100" "vm" "scsi0" "pool:vol" (by decide)

/-! ## Claim C4 — `humanize_mb` format and thresholds -/

/-- C4, counterexample.  The claim says the MiB branch renders with no
decimal places; the code formats every branch with `:.2f`, so
`humanize(512)` is `"512 (512.00 MiB)"`, not `"512 (512 MiB)"`. -/
theorem humanize_mib_two_decimals :
    humanize_mb 512 = "512 (512.00 MiB)" ∧ humanize_mb 512 ≠ "512 (512 MiB)" := by
  exact ⟨by decide, by decide⟩

/-- C4, amended.  `humanize` produces `"<rawMiB> (<value> <unit>)"` with
TiB when `mib ≥ 1024*1024`, GiB when `1024 ≤ mib < 1024*1024`, MiB below,
and TWO decimal places in every branch (including MiB);
`humanize(2048) = "2048 (2.00 GiB)"` and `humanize(512) = "512 (512.00 MiB)"`. -/
theorem humanize_format_thresholds :
    (∀ mb : Int, 1024 * 1024 ≤ mb →
      humanize_mb mb = toString mb ++ " (" ++ fmtFixed2 mb (1024 * 1024) ++ " " ++ "TiB" ++ ")")
    ∧ (∀ mb : Int, 1024 ≤ mb → mb < 1024 * 1024 →
      humanize_mb mb = toString mb ++ " (" ++ fmtFixed2 mb 1024 ++ " " ++ "GiB" ++ ")")
    ∧ (∀ mb : Int, mb < 1024 →
      humanize_mb mb = toString mb ++ " (" ++ fmtFixed2 mb 1 ++ " " ++ "MiB" ++ ")")
    ∧ humanize_mb 2048 = "2048 (2.00 GiB)"
    ∧ humanize_mb (1024 * 1024) = "1048576 (1.00 TiB)"
    ∧ humanize_mb 512 = "512 (512.00 MiB)" := by
  refine ⟨?_, ?_, ?_, by decide, by decide, by decide⟩
  · intro mb h
    have h' : (1048576 : Int) ≤ mb := by linarith
    simp [humanize_mb, h']
  · intro mb h1 h2
    have h2' : ¬ (1048576 : Int) ≤ mb := by
      rw [not_le]
      linarith
    simp [humanize_mb, h1, h2']
  · intro mb h
    have h1 : ¬ (1048576 : Int) ≤ mb := by
      rw [not_le]
      linarith
    simp [humanize_mb, h1, not_le.mpr h]

/-- C4, witness for the amended theorem in the GiB branch at 2048. -/
theorem humanize_format_thresholds_witness :
    humanize_mb 2048 = toString (2048 : Int) ++ " (" ++ fmtFixed2 2048 1024 ++ " " ++ "GiB" ++ ")" :=
  humanize_format_thresholds.2.1 2048 (by norm_num) (by norm_num)

/-! ## Claim C5 — the `normalizeToMiB` conversion table -/

/-- C5, confirmed.  `parse_size_to_mb` implements the reference table:
a token ending in a digit (in particular a purely numeric token) is parsed
whole as an integer; for a unit-suffixed token the numeric portion
(truncated at a decimal point) is parsed and scaled by the uppercased unit
letter with K → `n fdiv 1024`, M → `n`, G → `n*1024`, T → `n*1024*1024`,
and any unrecognized letter treated as already-MiB; the spec's example
values all hold, and empty / unparseable inputs give null. -/
theorem normalize_to_mib_table :
    (∀ s : String, s.data ≠ [] → (∀ c ∈ s.data, c.isDigit = true) →
      parse_size_to_mb s = some ((digitsVal s.data : Nat) : Int))
    ∧ (∀ (cs : List Char) (u : Char), u.isDigit = false →
      parseSizeCore (cs ++ [u]) = (pyIntCore (truncDot cs)).map (applyUnit u.toUpper))
    ∧ (∀ n : Int, applyUnit 'K' n = Int.fdiv n 1024 ∧ applyUnit 'M' n = n
        ∧ applyUnit 'G' n = n * 1024 ∧ applyUnit 'T' n = n * 1024 * 1024
        ∧ applyUnit 'X' n = n)
    ∧ parse_size_to_mb "1024K" = some 1 ∧ parse_size_to_mb "2M" = some 2
    ∧ parse_size_to_mb "1G" = some 1024 ∧ parse_size_to_mb "1g" = some 1024
    ∧ parse_size_to_mb "1T" = some 1048576 ∧ parse_size_to_mb "512" = some 512
    ∧ parse_size_to_mb "" = none ∧ parse_size_to_mb "abcX" = none := by
  refine ⟨?_, ?_, ?_, by decide, by decide, by decide, by decide, by decide,
    by decide, by decide, by decide⟩
  · intro s hne hall
    unfold parse_size_to_mb parseSizeCore
    cases hr : s.data.reverse with
    | nil => exact absurd (List.reverse_eq_nil_iff.mp hr) hne
    | cons u rest =>
      have hu : u.isDigit = true := by
        refine hall u (List.mem_reverse.mp ?_)
        rw [hr]
        exact List.mem_cons_self u rest
      dsimp only
      rw [if_pos hu]
      exact pyIntCore_all_digits hne hall
  · exact fun cs u h => parseSizeCore_concat_unit cs u h
  · intro n
    refine ⟨?_, ?_, ?_, ?_, ?_⟩ <;> simp [applyUnit]

/-- C5, witness discharging the hypotheses of the table theorem at `"512"`
and at the M-suffixed token `"2" ++ "M"`. -/
theorem normalize_to_mib_table_witness :
    parse_size_to_mb "512" = some ((digitsVal "512".data : Nat) : Int)
    ∧ parseSizeCore ("2".data ++ ['M']) =
        (pyIntCore (truncDot "2".data)).map (applyUnit 'M'.toUpper) :=
  ⟨normalize_to_mib_table.1 "512" (by decide) (by decide),
   normalize_to_mib_table.2.1 "2".data 'M' (by decide)⟩

/-! ## Claim C6 — decimal-point truncation -/

/-- C6, counterexample.  The claim says a purely numeric token with a
decimal point, such as `"512.5"`, has its fractional part truncated; in the
code such a token takes the last-character-is-a-digit branch and
`int("512.5")` raises, so the result is null, not `512`. -/
theorem numeric_decimal_token_none : parse_size_to_mb "512.5" = none := by
  decide

/-- C6, amended.  Truncation of the fractional part happens only for
unit-suffixed tokens (last character not a digit): there the numeric
portion is cut at its first `.` before conversion, so appending a
fractional part never changes the result; a token ending in a digit that
contains a `.` is parsed whole by `int(...)` and yields null. -/
theorem decimal_truncation_unit_tokens :
    (∀ (num frac : List Char) (u : Char), u.isDigit = false → '.' ∉ num →
      parseSizeCore ((num ++ '.' :: frac) ++ [u]) = parseSizeCore (num ++ [u]))
    ∧ (∀ (body : List Char) (d : Char), d.isDigit = true → '.' ∈ body ++ [d] →
      parseSizeCore (body ++ [d]) = none)
    ∧ parse_size_to_mb "32.5G" = some 32768 := by
  refine ⟨?_, ?_, by decide⟩
  · intro num frac u hu hnum
    rw [parseSizeCore_concat_unit _ u hu, parseSizeCore_concat_unit _ u hu,
      truncDot_append_dot frac hnum, truncDot_of_not_dot hnum]
  · intro body d hd hdot
    unfold parseSizeCore
    rw [show (body ++ [d]).reverse = d :: body.reverse by simp]
    dsimp only
    rw [if_pos hd]
    exact pyIntCore_dot_none hdot

/-- C6, witness for the amended theorem at `"32.5G"` (truncates to `"32G"`). -/
theorem decimal_truncation_unit_tokens_witness :
    parseSizeCore ((['3', '2'] ++ '.' :: ['5']) ++ ['G']) =
      parseSizeCore (['3', '2'] ++ ['G']) :=
  decimal_truncation_unit_tokens.1 ['3', '2'] ['5'] 'G' (by decide) (by decide)

/-! ## Claim C7 — storage-pool inventory percentages -/

/-- C7, counterexample.  With `total = 0` bytes (and 5 MiB used) the code
sets BOTH percentages to `0.00`; the claim's `availablePct = 100 - usedPct`
would give `100.00` there. -/
theorem storage_pct_zero_total :
    (mkStorageRow "c" "n" "s" "t" 0 5242880 0).used_pct = "0.00"
    ∧ (mkStorageRow "c" "n" "s" "t" 0 5242880 0).available_pct = "0.00"
    ∧ ("0.00" : String) ≠ "100.00" := by
  exact ⟨by decide, by decide, by decide⟩

/-- C7, amended.  Byte figures are converted by floor division by
`1048576` (the Python truthiness guard collapses, since `0 // 1048576 = 0`);
when `totalMiB > 0`, `usedPct` is the 2-decimal rendering of the binary64
value `(usedMiB * 100.0) / totalMiB` and `availablePct` that of the
binary64 value `100.0 - usedPct` — double arithmetic, so e.g. a 4 GB pool
(`totalMiB = 4000`) with 1 MiB used prints `0.03`/`99.97` (the double
nearest `0.025` lies above it), not the exact-rational `0.02`/`99.98`;
when `totalMiB ≤ 0` BOTH percentages are formatted `0.0` (availablePct is
`0.00` there, not `100.00`). -/
theorem storage_row_percentages :
    (∀ (cn nn sid st : String) (tb ub ab : Int),
      (mkStorageRow cn nn sid st tb ub ab).total_MB = Int.fdiv tb (1024 * 1024)
      ∧ (mkStorageRow cn nn sid st tb ub ab).used_MB = Int.fdiv ub (1024 * 1024)
      ∧ (mkStorageRow cn nn sid st tb ub ab).available_MB = Int.fdiv ab (1024 * 1024)
      ∧ (0 < Int.fdiv tb (1024 * 1024) →
          (mkStorageRow cn nn sid st tb ub ab).used_pct =
            used_pct_str (Int.fdiv ub (1024 * 1024)) (Int.fdiv tb (1024 * 1024))
          ∧ (mkStorageRow cn nn sid st tb ub ab).available_pct =
            avail_pct_str (Int.fdiv ub (1024 * 1024)) (Int.fdiv tb (1024 * 1024)))
      ∧ (Int.fdiv tb (1024 * 1024) ≤ 0 →
          (mkStorageRow cn nn sid st tb ub ab).used_pct = fmtFixed2 0 1
          ∧ (mkStorageRow cn nn sid st tb ub ab).available_pct = fmtFixed2 0 1))
    ∧ (mkStorageRow "c" "n" "s" "t" 4194304000 1572864 0).used_pct = "0.03"
    ∧ (mkStorageRow "c" "n" "s" "t" 4194304000 1572864 0).available_pct = "99.97"
    ∧ (mkStorageRow "c" "n" "s" "t" 20971520000 1048576 0).used_pct = "0.01" := by
  refine ⟨?_, by decide, by decide, by decide⟩
  intro cn nn sid st tb ub ab
  have htb : (if tb ≠ 0 then Int.fdiv tb (1024 * 1024) else 0) = Int.fdiv tb (1024 * 1024) := by
    by_cases h : tb = 0
    · simp [h]
    · simp [h]
  have hub : (if ub ≠ 0 then Int.fdiv ub (1024 * 1024) else 0) = Int.fdiv ub (1024 * 1024) := by
    by_cases h : ub = 0
    · simp [h]
    · simp [h]
  have hab : (if ab ≠ 0 then Int.fdiv ab (1024 * 1024) else 0) = Int.fdiv ab (1024 * 1024) := by
    by_cases h : ab = 0
    · simp [h]
    · simp [h]
  refine ⟨?_, ?_, ?_, ?_, ?_⟩
  · simp only [mkStorageRow, htb]
  · simp only [mkStorageRow, hub]
  · simp only [mkStorageRow, hab]
  · intro h
    simp only [mkStorageRow, htb, hub]
    rw [if_pos h]
    exact ⟨rfl, rfl⟩
  · intro h
    simp only [mkStorageRow, htb, hub]
    rw [if_neg (not_lt.mpr h)]
    exact ⟨rfl, rfl⟩

/-- C7, witness for the amended theorem with 2 MiB total, 1 MiB used. -/
theorem storage_row_percentages_witness :
    (mkStorageRow "c" "n" "s" "t" 2097152 1048576 1048576).used_pct =
      used_pct_str (Int.fdiv 1048576 (1024 * 1024)) (Int.fdiv 2097152 (1024 * 1024))
    ∧ (mkStorageRow "c" "n" "s" "t" 2097152 1048576 1048576).available_pct =
      avail_pct_str (Int.fdiv 1048576 (1024 * 1024)) (Int.fdiv 2097152 (1024 * 1024)) :=
  (storage_row_percentages.1 "c" "n" "s" "t" 2097152 1048576 1048576).2.2.2.1 (by decide)

/-! ## Claim C9 — empty workload inventory -/

/-- C9, counterexample.  With zero workloads in table mode (no suppression
requested) the code prints NOTHING — no header line and no separator rule —
contradicting the claim that headers are still present; the exit status is
indeed 0. -/
theorem empty_inventory_table_no_header :
    (emptyInventoryOutput "table" false false false false).lines = []
    ∧ (emptyInventoryOutput "table" false false false false).exitCode = 0 := by
  exact ⟨by decide, by decide⟩

/-- C9, amended.  With zero workloads the process exits with status 0, and
something (exactly the one CSV per-disk header line) is printed only in CSV
mode with the default view and headers enabled; table and JSON modes and
the aggregate views print nothing at all. -/
theorem empty_inventory_output_spec :
    ∀ (output : String) (tpv tpn vps nh : Bool),
      (emptyInventoryOutput output tpv tpn vps nh).exitCode = 0
      ∧ ((emptyInventoryOutput output tpv tpn vps nh).lines ≠ [] ↔
          (output = "csv" ∧ tpv = false ∧ tpn = false ∧ vps = false ∧ nh = false))
      ∧ (emptyInventoryOutput output tpv tpn vps nh).lines.length ≤ 1 := by
  intro output tpv tpn vps nh
  refine ⟨rfl, ?_, ?_⟩ <;>
    cases tpv <;> cases tpn <;> cases vps <;> cases nh <;>
      by_cases ho : output = "csv" <;>
        simp [emptyInventoryOutput, ho]

/-! ## Claim C2 — per-node total vs per-VM totals -/

/-- C2, counterexample.  With one vmid appearing on two nodes (the
documented first-seen quirk), the per-VM view attributes the WHOLE total to
the first-seen node: per-node total for `"A"` is 10, but the per-VM totals
restricted to node `"A"` sum to 30. -/
theorem per_node_vs_per_vm_mismatch :
    perNodeTotal
        [{ cluster := "c", node := "A", vmid := "1", vmname := "vm1",
           storage := "st", vmdisk := "d0", size := "10M", size_mb := 10 },
         { cluster := "c", node := "B", vmid := "1", vmname := "vm1",
           storage := "st", vmdisk := "d1", size := "20M", size_mb := 20 }] "A" = 10
    ∧ perVmNodeSum
        [{ cluster := "c", node := "A", vmid := "1", vmname := "vm1",
           storage := "st", vmdisk := "d0", size := "10M", size_mb := 10 },
         { cluster := "c", node := "B", vmid := "1", vmname := "vm1",
           storage := "st", vmdisk := "d1", size := "20M", size_mb := 20 }] "A" = 30 := by
  exact ⟨by decide, by decide⟩

/-- C2, amended.  Provided every workload id maps to a single node across
the collection (the normal situation the spec itself assumes), the
per-node view's total for `n` equals the sum of the per-VM view's totals
restricted to the workloads whose reported node is `n`. -/
theorem per_node_total_eq_per_vm_sum :
    ∀ (rows : List DiskRow) (n : String),
      (∀ r ∈ rows, ∀ r' ∈ rows, r.vmid = r'.vmid → r.node = r'.node) →
      perNodeTotal rows n = perVmNodeSum rows n := by
  intro rows n h
  have h1 : perNodeTotal rows n = sumSizesOnNode rows n := by
    unfold perNodeTotal total_per_node
    rw [alookup_foldl_node rows [] n]
    simp [alookup]
  have h2 : perVmNodeSum rows n = sumVmAccOnNode (total_per_vm rows) n := by
    unfold perVmNodeSum total_per_vm_rows sumVmAccOnNode
    rw [List.filter_map, List.map_map]
    rfl
  have h3 : sumVmAccOnNode (total_per_vm rows) n = sumSizesOnNode rows n := by
    unfold total_per_vm
    rw [sumVmAcc_foldl rows [] n h (by simp) (by simp)]
    simp [sumVmAccOnNode]
  rw [h1, h2, h3]

/-- C2, witness for the amended theorem on two records of one workload on
one node. -/
theorem per_node_total_eq_per_vm_sum_witness :
    perNodeTotal
        [{ cluster := "c", node := "A", vmid := "1", vmname := "vm1",
           storage := "st", vmdisk := "d0", size := "10M", size_mb := 10 },
         { cluster := "c", node := "A", vmid := "1", vmname := "vm1",
           storage := "st", vmdisk := "d1", size := "20M", size_mb := 20 }] "A"
      = perVmNodeSum
        [{ cluster := "c", node := "A", vmid := "1", vmname := "vm1",
           storage := "st", vmdisk := "d0", size := "10M", size_mb := 10 },
         { cluster := "c", node := "A", vmid := "1", vmname := "vm1",
           storage := "st", vmdisk := "d1", size := "20M", size_mb := 20 }] "A" :=
  per_node_total_eq_per_vm_sum _ "A" (by decide)

/-! ## Claim C3 — the DiskRecord invariant -/

/-- C3, counterexample.  On the adversarial spec `":,size=-1G"` the parser
produces a record with EMPTY storage, EMPTY volume and NEGATIVE `size_mb`,
violating every clause of the claimed invariant except the `sizeText` one. -/
theorem disk_record_invariant_violation :
    extract_disk_info "c" "n" "1" "v" "b" ":,size=-1G" =
      some { cluster := "c", node := "n", vmid := "1", vmname := "v",
             storage := "", vmdisk := "", size := "-1G", size_mb := -1024 }
    ∧ (-1024 : Int) < 0 := by
  exact ⟨by decide, by decide⟩

/-- C3, amended.  Every record the parser produces satisfies
`sizeMiB = normalizeToMiB(sizeText)` (with `sizeText` the whitespace-trimmed
size token); `sizeMiB ≥ 0` holds provided the spec contains no `'-'`;
`storage` is non-empty provided the spec does not begin with `':'`; and the
volume is non-empty provided the character following the first `':'` exists
and is not `','`.  Unconditionally the invariant can fail (see the
counterexample). -/
theorem disk_record_invariant_conditional :
    ∀ (cn nd id nm bus spec : String) (r : DiskRow),
      extract_disk_info cn nd id nm bus spec = some r →
      parse_size_to_mb r.size = some r.size_mb
      ∧ ('-' ∉ spec.data → 0 ≤ r.size_mb)
      ∧ (∀ h0 t, spec.data = h0 :: t → h0 ≠ ':' → r.storage ≠ "")
      ∧ (∀ c0, ((spec.data.dropWhile (fun c => c != ':')).tail).head? = some c0 →
          c0 ≠ ',' → r.vmdisk ≠ "") := by
  intro cn nd id nm bus spec r h
  simp only [extract_disk_info, extractCore] at h
  by_cases hc : spec.data.contains ':' = true
  case neg =>
    rw [if_neg hc] at h
    simp at h
  case pos =>
    rw [if_pos hc] at h
    split at h
    · simp at h
    · rename_i size_part hm
      set sz0 : List Char :=
        (if size_part.contains ',' then size_part.takeWhile (fun c => c != ',')
         else size_part) with hsz0
      split at h
      · simp at h
      · rename_i hne
        split at h
        · simp at h
        · rename_i v hp
          rw [Option.some.injEq] at h
          subst h
          refine ⟨hp, ?_, ?_, ?_⟩
          · intro hspec
            refine parseSizeCore_nonneg ?_ hp
            intro hmem
            apply hspec
            have h1 := mem_of_mem_pyTrim hmem
            have h2 : '-' ∈ size_part := by
              rw [hsz0] at h1
              by_cases hcc : size_part.contains ',' = true
              · rw [if_pos hcc] at h1
                exact mem_of_mem_takeWhile h1
              · rw [if_neg hcc] at h1
                exact h1
            exact afterLast_subset hm '-' h2
          · intro h0 t hspec hne0
            show (⟨spec.data.takeWhile (fun c => c != ':')⟩ : String) ≠ ""
            rw [hspec, List.takeWhile_cons, if_pos (by simpa using hne0)]
            intro he
            have hd := congrArg String.data he
            simp at hd
          · intro c0 hhead hnec
            show (⟨((spec.data.dropWhile (fun c => c != ':')).tail).takeWhile
              (fun c => c != ',')⟩ : String) ≠ ""
            cases hr : (spec.data.dropWhile (fun c => c != ':')).tail with
            | nil =>
              rw [hr] at hhead
              simp at hhead
            | cons a t2 =>
              rw [hr] at hhead
              simp only [List.head?_cons, Option.some.injEq] at hhead
              subst hhead
              rw [List.takeWhile_cons, if_pos (by simpa using hnec)]
              intro he
              have hd := congrArg String.data he
              simp at hd

/-- C3, witness for the conditional invariant at the well-formed spec
`"pool:vol0,size=32G"`. -/
theorem disk_record_invariant_conditional_witness :
    parse_size_to_mb "32G" = some 32768 ∧ (0 : Int) ≤ 32768
    ∧ ("pool" : String) ≠ "" ∧ ("vol0" : String) ≠ "" := by
  have h := disk_record_invariant_conditional "c" "n" "100" "vm" "scsi0"
    "pool:vol0,size=32G"
    { cluster := "c", node := "n", vmid := "100", vmname := "vm",
      storage := "pool", vmdisk := "vol0", size := "32G", size_mb := 32768 }
    (by decide)
  exact ⟨h.1, h.2.1 (by decide), h.2.2.1 'p' "ool:vol0,size=32G".data (by decide) (by decide),
    h.2.2.2 'v' (by decide) (by decide)⟩

/-! ## Claim C8 — failure isolation in the orchestrator -/

/-- C8, confirmed.  The `as_completed` loop processes exactly one iteration
per submitted task (their number equals the number of workloads), the
collected rows are exactly the concatenation of the succeeding workloads'
records unchanged, the diagnostic stream carries exactly one
`"Error processing ..."` line naming each failing workload, and — for any
completion order of the pool's tasks — the multiset of collected rows is
unchanged, so no failure removes, alters or prevents another workload's
records. -/
theorem collect_all_isolation :
    ∀ results : List (VmEntry × Except String (List DiskRow)),
      (collectLoop results).2.2 = results.length
      ∧ (collectLoop results).1 = (results.filterMap okRecords).flatten
      ∧ (collectLoop results).2.1 = results.filterMap errRecord
      ∧ ∀ results₂, results.Perm results₂ →
          ((collectLoop results).1).Perm ((collectLoop results₂).1) := by
  have key : ∀ res : List (VmEntry × Except String (List DiskRow)),
      collectLoop res =
        ((res.filterMap okRecords).flatten, res.filterMap errRecord, res.length) := by
    intro res
    unfold collectLoop
    rw [collectLoop_foldl res [] [] 0]
    simp
  intro results
  refine ⟨by rw [key], by rw [key], by rw [key], ?_⟩
  intro res2 hperm
  rw [key, key]
  exact (hperm.filterMap okRecords).flatten

/-- C8, witness: five workloads of which the third fails; tasks run = 5,
exactly one reported failure, and the collected rows are permutation-stable
under a different completion order. -/
theorem collect_all_isolation_witness :
    (collectLoop
      [(⟨"101", "n1", "vm101", "qemu"⟩, Except.ok
          [{ cluster := "c", node := "n1", vmid := "101", vmname := "vm101",
             storage := "local", vmdisk := "d0", size := "1G", size_mb := 1024 }]),
       (⟨"102", "n1", "vm102", "qemu"⟩, Except.ok
          [{ cluster := "c", node := "n1", vmid := "102", vmname := "vm102",
             storage := "local", vmdisk := "d0", size := "2G", size_mb := 2048 }]),
       (⟨"103", "n2", "vm103", "lxc"⟩, Except.error "boom"),
       (⟨"104", "n2", "vm104", "qemu"⟩, Except.ok
          [{ cluster := "c", node := "n2", vmid := "104", vmname := "vm104",
             storage := "local", vmdisk := "d0", size := "3G", size_mb := 3072 }]),
       (⟨"105", "n2", "vm105", "qemu"⟩, Except.ok [])]).2.2 = 5
    ∧ (collectLoop
      [(⟨"101", "n1", "vm101", "qemu"⟩, Except.ok
          [{ cluster := "c", node := "n1", vmid := "101", vmname := "vm101",
             storage := "local", vmdisk := "d0", size := "1G", size_mb := 1024 }]),
       (⟨"102", "n1", "vm102", "qemu"⟩, Except.ok
          [{ cluster := "c", node := "n1", vmid := "102", vmname := "vm102",
             storage := "local", vmdisk := "d0", size := "2G", size_mb := 2048 }]),
       (⟨"103", "n2", "vm103", "lxc"⟩, Except.error "boom"),
       (⟨"104", "n2", "vm104", "qemu"⟩, Except.ok
          [{ cluster := "c", node := "n2", vmid := "104", vmname := "vm104",
             storage := "local", vmdisk := "d0", size := "3G", size_mb := 3072 }]),
       (⟨"105", "n2", "vm105", "qemu"⟩, Except.ok [])]).2.1.length = 1
    ∧ ((collectLoop
      [(⟨"101", "n1", "vm101", "qemu"⟩, Except.ok
          [{ cluster := "c", node := "n1", vmid := "101", vmname := "vm101",
             storage := "local", vmdisk := "d0", size := "1G", size_mb := 1024 }]),
       (⟨"102", "n1", "vm102", "qemu"⟩, Except.ok
          [{ cluster := "c", node := "n1", vmid := "102", vmname := "vm102",
             storage := "local", vmdisk := "d0", size := "2G", size_mb := 2048 }]),
       (⟨"103", "n2", "vm103", "lxc"⟩, Except.error "boom"),
       (⟨"104", "n2", "vm104", "qemu"⟩, Except.ok
          [{ cluster := "c", node := "n2", vmid := "104", vmname := "vm104",
             storage := "local", vmdisk := "d0", size := "3G", size_mb := 3072 }]),
       (⟨"105", "n2", "vm105", "qemu"⟩, Except.ok [])]).1).Perm
      ((collectLoop
      [(⟨"102", "n1", "vm102", "qemu"⟩, Except.ok
          [{ cluster := "c", node := "n1", vmid := "102", vmname := "vm102",
             storage := "local", vmdisk := "d0", size := "2G", size_mb := 2048 }]),
       (⟨"101", "n1", "vm101", "qemu"⟩, Except.ok
          [{ cluster := "c", node := "n1", vmid := "101", vmname := "vm101",
             storage := "local", vmdisk := "d0", size := "1G", size_mb := 1024 }]),
       (⟨"103", "n2", "vm103", "lxc"⟩, Except.error "boom"),
       (⟨"104", "n2", "vm104", "qemu"⟩, Except.ok
          [{ cluster := "c", node := "n2", vmid := "104", vmname := "vm104",
             storage := "local", vmdisk := "d0", size := "3G", size_mb := 3072 }]),
       (⟨"105", "n2", "vm105", "qemu"⟩, Except.ok [])]).1) := by
  refine ⟨by decide, by decide, ?_⟩
  exact (collect_all_isolation _).2.2.2 _ (List.Perm.swap _ _ _)

/-! ## Claim C10 — the `int(vmid)` sort keys are partial -/

/-- C10, confirmed.  The per-disk, per-VM and per-(VM, storage) views sort
by keys containing `int(vmid)`: each sort succeeds (produces a view) if and
only if EVERY collected record's workload id parses as a Python integer —
one unparseable id raises an uncaught `ValueError` (modelled as `none`) and
no view output is produced; on success the per-disk view contains exactly
as many rows as were collected. -/
theorem sort_views_require_int_vmids :
    ∀ rows : List DiskRow,
      ((sortDiskRows rows).isSome = true ↔ ∀ r ∈ rows, (py_int r.vmid).isSome = true)
      ∧ ((sortVmTotalRows rows).isSome = true ↔ ∀ r ∈ rows, (py_int r.vmid).isSome = true)
      ∧ ((sortVmStorRows rows).isSome = true ↔ ∀ r ∈ rows, (py_int r.vmid).isSome = true)
      ∧ (∀ l, sortDiskRows rows = some l → l.length = rows.length) := by
  intro rows
  have hkey1 : ∀ r : DiskRow,
      ((diskKey r).map (fun k => (k, r))).isSome = (py_int r.vmid).isSome := by
    intro r
    cases hpi : pyIntCore r.vmid.data <;> simp [diskKey, py_int, hpi]
  have hkey2 : ∀ r : VmTotalRow,
      ((vmKey r).map (fun k => (k, r))).isSome = (py_int r.vmid).isSome := by
    intro r
    cases hpi : pyIntCore r.vmid.data <;> simp [vmKey, py_int, hpi]
  have hkey3 : ∀ r : VmStorRow,
      ((storKey r).map (fun k => (k, r))).isSome = (py_int r.vmid).isSome := by
    intro r
    cases hpi : pyIntCore r.vmid.data <;> simp [storKey, py_int, hpi]
  have hsame1 : (sortDiskRows rows).isSome =
      (mapOpt (fun r => (diskKey r).map (fun k => (k, r))) rows).isSome := by
    unfold sortDiskRows
    split
    · rename_i heq
      rw [heq]
      rfl
    · rename_i keyed heq
      rw [heq]
      rfl
  have hsame2 : (sortVmTotalRows rows).isSome =
      (mapOpt (fun r => (vmKey r).map (fun k => (k, r))) (total_per_vm_rows rows)).isSome := by
    unfold sortVmTotalRows
    split
    · rename_i heq
      rw [heq]
      rfl
    · rename_i keyed heq
      rw [heq]
      rfl
  have hsame3 : (sortVmStorRows rows).isSome =
      (mapOpt (fun r => (storKey r).map (fun k => (k, r))) (vm_per_storage_rows rows)).isSome := by
    unfold sortVmStorRows
    split
    · rename_i heq
      rw [heq]
      rfl
    · rename_i keyed heq
      rw [heq]
      rfl
  have hbridge2 : (∀ vr ∈ total_per_vm_rows rows, (py_int vr.vmid).isSome = true) ↔
      (∀ r ∈ rows, (py_int r.vmid).isSome = true) := by
    unfold total_per_vm_rows
    rw [List.forall_mem_map]
    constructor
    · intro hall r hr
      have hk : r.vmid ∈ (total_per_vm rows).map Prod.fst := by
        unfold total_per_vm
        exact (mem_keys_foldl_upsert (fun r : DiskRow => r.vmid)
          (fun (r : DiskRow) (v : VMTotalAcc) =>
            { v with total_size_MB := v.total_size_MB + r.size_mb })
          (fun (r : DiskRow) =>
            ({ cluster := r.cluster, node := r.node, vmname := r.vmname,
               total_size_MB := r.size_mb } : VMTotalAcc)) rows [] r.vmid).mpr
          (Or.inr ⟨r, hr, rfl⟩)
      obtain ⟨e, he, hek⟩ := List.mem_map.mp hk
      have h' : (py_int e.1).isSome = true := hall e he
      rw [hek] at h'
      exact h'
    · intro hall e he
      show (py_int e.1).isSome = true
      have hk : e.1 ∈ (total_per_vm rows).map Prod.fst := List.mem_map_of_mem Prod.fst he
      have hmem := (mem_keys_foldl_upsert (fun r : DiskRow => r.vmid)
        (fun (r : DiskRow) (v : VMTotalAcc) =>
          { v with total_size_MB := v.total_size_MB + r.size_mb })
        (fun (r : DiskRow) =>
          ({ cluster := r.cluster, node := r.node, vmname := r.vmname,
             total_size_MB := r.size_mb } : VMTotalAcc)) rows [] e.1).mp
        (by unfold total_per_vm at hk; exact hk)
      rcases hmem with hfalse | ⟨r, hr, hrk⟩
      · simp at hfalse
      · rw [← hrk]
        exact hall r hr
  have hbridge3 : (∀ vr ∈ vm_per_storage_rows rows, (py_int vr.vmid).isSome = true) ↔
      (∀ r ∈ rows, (py_int r.vmid).isSome = true) := by
    simp only [vm_per_storage_rows]
    rw [List.forall_mem_map]
    constructor
    · intro hall r hr
      have hk : (r.node, r.vmid, r.vmname, r.storage) ∈
          (vm_stor_totals rows).map Prod.fst := by
        unfold vm_stor_totals
        exact (mem_keys_foldl_upsert
          (fun r : DiskRow => (r.node, r.vmid, r.vmname, r.storage))
          (fun (r : DiskRow) (v : Int) => v + r.size_mb)
          (fun (r : DiskRow) => r.size_mb) rows []
          (r.node, r.vmid, r.vmname, r.storage)).mpr (Or.inr ⟨r, hr, rfl⟩)
      obtain ⟨e, he, hek⟩ := List.mem_map.mp hk
      have h' : (py_int e.1.2.1).isSome = true := hall e he
      rw [hek] at h'
      exact h'
    · intro hall e he
      show (py_int e.1.2.1).isSome = true
      have hk : e.1 ∈ (vm_stor_totals rows).map Prod.fst := List.mem_map_of_mem Prod.fst he
      have hmem := (mem_keys_foldl_upsert
        (fun r : DiskRow => (r.node, r.vmid, r.vmname, r.storage))
        (fun (r : DiskRow) (v : Int) => v + r.size_mb)
        (fun (r : DiskRow) => r.size_mb) rows [] e.1).mp
        (by unfold vm_stor_totals at hk; exact hk)
      rcases hmem with hfalse | ⟨r, hr, hrk⟩
      · simp at hfalse
      · rw [← hrk]
        simpa using hall r hr
  refine ⟨?_, ?_, ?_, ?_⟩
  · rw [hsame1, mapOpt_isSome, List.all_eq_true]
    constructor
    · intro hall r hr
      rw [← hkey1 r]
      exact hall r hr
    · intro hall r hr
      rw [hkey1 r]
      exact hall r hr
  · rw [hsame2, mapOpt_isSome, List.all_eq_true]
    refine Iff.trans ?_ hbridge2
    constructor
    · intro hall vr hvr
      rw [← hkey2 vr]
      exact hall vr hvr
    · intro hall vr hvr
      rw [hkey2 vr]
      exact hall vr hvr
  · rw [hsame3, mapOpt_isSome, List.all_eq_true]
    refine Iff.trans ?_ hbridge3
    constructor
    · intro hall vr hvr
      rw [← hkey3 vr]
      exact hall vr hvr
    · intro hall vr hvr
      rw [hkey3 vr]
      exact hall vr hvr
  · intro l hl
    unfold sortDiskRows at hl
    split at hl
    · simp at hl
    · rename_i keyed heq
      rw [Option.some.injEq] at hl
      subst hl
      rw [List.length_map, sortByKey_length]
      exact mapOpt_length _ rows keyed heq

/-- C10, witness: on a one-record collection with a numeric workload id the
per-disk sort succeeds. -/
theorem sort_views_require_int_vmids_witness :
    (sortDiskRows
      [{ cluster := "c", node := "n1", vmid := "9", vmname := "vm9",
         storage := "local", vmdisk := "d0", size := "1G", size_mb := 1024 }]).isSome = true :=
  (sort_views_require_int_vmids
    [{ cluster := "c", node := "n1", vmid := "9", vmname := "vm9",
       storage := "local", vmdisk := "d0", size := "1G", size_mb := 1024 }]).1.mpr
    (by decide)

end PveStorageInfo
